import Mathlib

/-!
# A verification development of the basic reactive system

This file gives a shallow embedding, in Lean 4, of the reactive
dependency-tracking engine implemented in `src/index.ts` of the
repository (signals, effects, memos, batching), together with theorems
settling the behavioural claims stated about it.

Modelling conventions:
* Signal values are natural numbers (the engine treats values as opaque).
* JS `Set` objects (`observers`, `dependencies`) become lists with
  set-insertion semantics (insert only when absent, at the end), which
  matches insertion-order iteration of JS sets.
* The module-level mutable globals (`runningEffects`, `Updates`) become
  fields of an explicit `Engine` state that is threaded through every
  operation.
* `Updates : Effect[] | undefined` becomes `Option (List Nat)`; the JS
  truthiness test `if (Updates)` is exactly `Option.isSome` here, since a
  JS array (including the empty array) is always truthy.
* Computation bodies are deep-embedded as a small syntax (`Exp`, `Body`)
  whose interpreter performs exactly the engine calls the JS closures
  would perform.  A body can raise (`Body.throwE`), modelling a JS
  exception; outcomes distinguish normal return, an exception, and
  running out of interpretation fuel.
* Recursion through the engine (effects running effects, the flush
  loop) is made total with a fuel parameter; every mutually recursive
  function consumes one unit of fuel per call, and returns the
  `fuelOut` outcome when the fuel is exhausted.
* Two ghost fields instrument the state without influencing it:
  `drainLog` records, in order, the queue entries taken by the flush
  loop, and `flushLog` records the final queue content of each
  completed flush cycle.  The `runs` counter on an effect mirrors the
  external trigger counters used by the repository tests.
-/

/-- Outcome of running an engine operation: normal completion, a raised
exception propagating out (JS `throw`), or fuel exhaustion of the
interpreter. -/
inductive Outcome where
  | ok
  | exn
  | fuelOut
  deriving DecidableEq, Repr

/-- A signal node, from `src/index.ts` (`SignalNode`): the stored value
and the set of observing effects (as effect indices). -/
structure SignalNode where
  current : Nat
  observers : List Nat
  deriving DecidableEq, Repr

/-- Expressions: value-producing computations appearing inside effect
and memo bodies.  `readS s` is a call of signal `s`'s reader.
`untrackE e` is the `untrack` escape hatch wrapped around an
expression. -/
inductive Exp where
  | const (n : Nat)
  | readS (s : Nat)
  | add (a b : Exp)
  | gtc (e : Exp) (n : Nat)
  | econd (c t f : Exp)
  | untrackE (e : Exp)
  deriving DecidableEq, Repr

/-- Body statements of an effect: the statement forms the repository
test bodies use.  `writeS s e` calls signal `s`'s setter with the value
of `e`; `bite c t f` branches on `c` being nonzero; `mkEffect b`
creates (and immediately runs) a nested effect; `throwE` raises. -/
inductive Body where
  | skip
  | expr (e : Exp)
  | writeS (s : Nat) (e : Exp)
  | seq (a b : Body)
  | bite (c : Exp) (t f : Body)
  | throwE
  | mkEffect (fn : Body)
  deriving DecidableEq, Repr

/-- An effect node, from `src/index.ts` (`Effect`): its body, tracked
dependencies (signal indices), the `'pending'` marker (`state` in the
source, here a Bool: `true` iff the marker is set), the owner link and
owned children, plus a ghost counter of how many times the effect has
been run (mirroring the trigger counters of the repository tests).
The source also stores a `run` closure on each effect; it is never
called anywhere in the repository and is omitted. -/
structure Effect where
  fn : Body
  dependencies : List Nat
  state : Bool
  owner : Option Nat
  owned : List Nat
  runs : Nat
  deriving DecidableEq, Repr

/-- Callbacks passed to `runUpdates` in the source: either the
observer-enqueueing closure created inside `write` (carrying the
snapshot `[...signal.observers]`), or an effect/batch body. -/
inductive Cb where
  | enqueue (obs : List Nat)
  | body (b : Body)
  deriving DecidableEq, Repr

/-- The whole engine state: the module globals of `src/index.ts`
(`runningEffects`, `Updates`) plus the stores of allocated signals and
effects (JS closures capture their nodes; here nodes live in indexed
stores), plus ghost instrumentation (`drainLog`, `flushLog`).  An entry
`none` on `runningEffects` is the sentinel frame pushed by `untrack`. -/
structure Engine where
  signals : List SignalNode
  effects : List Effect
  runningEffects : List (Option Nat)
  updates : Option (List Nat)
  drainLog : List Nat
  flushLog : List (List Nat)
  deriving DecidableEq, Repr

/-- The engine before any signal or effect has been created. -/
def emptyEngine : Engine :=
  { signals := [], effects := [], runningEffects := [],
    updates := none, drainLog := [], flushLog := [] }

/-- Signal store lookup (out-of-range reads return an inert node; all
scenarios only use allocated indices). -/
def getSig (st : Engine) (s : Nat) : SignalNode :=
  st.signals.getD s { current := 0, observers := [] }

/-- Effect store lookup. -/
def getEff (st : Engine) (e : Nat) : Effect :=
  st.effects.getD e
    { fn := .skip, dependencies := [], state := false,
      owner := none, owned := [], runs := 0 }

/-- Update the signal node at index `s` (no-op when out of range). -/
def modifySig (s : Nat) (g : SignalNode → SignalNode) (st : Engine) : Engine :=
  { st with signals := st.signals.set s (g (getSig st s)) }

/-- Update the effect node at index `e` (no-op when out of range). -/
def modifyEff (e : Nat) (g : Effect → Effect) (st : Engine) : Engine :=
  { st with effects := st.effects.set e (g (getEff st e)) }

/-- `getRunningEffect` from the source: the top of the running stack.
A `none` entry (the `untrack` sentinel) yields no running effect, like
the null frame in JS. -/
def getRunningEffect (st : Engine) : Option Nat :=
  (st.runningEffects.head?).bind id

/-- Set-insertion: append `x` unless already present (JS `Set.add`). -/
def insertUniq (x : Nat) (l : List Nat) : List Nat :=
  if x ∈ l then l else l ++ [x]

/-- `trackEffectDependency` from the source: register the mutual edge
between running effect `e` and signal `s`. -/
def trackEffectDependency (e : Nat) (s : Nat) (st : Engine) : Engine :=
  let st := modifySig s (fun sg => { sg with observers := insertUniq e sg.observers }) st
  modifyEff e (fun ef => { ef with dependencies := insertUniq s ef.dependencies }) st

/-- The `read` closure of `createSignal`: if a computation is running,
register the edge; then return the current value. -/
def readSignal (s : Nat) (st : Engine) : Nat × Engine :=
  let st :=
    match getRunningEffect st with
    | some e => trackEffectDependency e s st
    | none => st
  ((getSig st s).current, st)

/-- Expression evaluation.  Reads perform dependency tracking; `econd`
only evaluates the branch taken (so only its reads track, as in JS);
`untrackE e`, modelled from the spec (see `Body` note below), pushes a
sentinel frame, evaluates `e`, and restores the stack. -/
def evalExp : Exp → Engine → Nat × Engine
  | .const n, st => (n, st)
  | .readS s, st => readSignal s st
  | .add a b, st =>
    let ra := evalExp a st
    let rb := evalExp b ra.2
    (ra.1 + rb.1, rb.2)
  | .gtc e n, st =>
    let r := evalExp e st
    (if r.1 > n then 1 else 0, r.2)
  | .econd c t f, st =>
    let rc := evalExp c st
    if rc.1 ≠ 0 then evalExp t rc.2 else evalExp f rc.2
  | .untrackE e, st =>
    let r := evalExp e { st with runningEffects := none :: st.runningEffects }
    (r.1, { r.2 with runningEffects := r.2.runningEffects.tail })

/-- One iteration of the observer-scheduling loop inside `write`: if
the observer's `'pending'` marker is not set, set it and push the
observer onto the open flush queue. -/
def enqueueOne (o : Nat) (st : Engine) : Engine :=
  if (getEff st o).state = false then
    let st1 := modifyEff o (fun e => { e with state := true }) st
    { st1 with updates := st1.updates.map (fun q => q ++ [o]) }
  else st

/-- The observer-scheduling loop inside `write`, over the snapshot
`[...signal.observers]`. -/
def enqueueObservers : List Nat → Engine → Engine
  | [], st => st
  | o :: rest, st => enqueueObservers rest (enqueueOne o st)

mutual

/-- `cleanup` from the source, with fuel for the recursion over owned
children: remove this effect from the observer set of each of its
dependencies, recursively clean owned children and drop them, clear the
`'pending'` marker, clear the dependency set. -/
def cleanup : Nat → Nat → Engine → Engine
  | 0, _, st => st
  | f + 1, eid, st =>
    let e := getEff st eid
    let st := e.dependencies.foldl
      (fun acc dep =>
        modifySig dep (fun sg => { sg with observers := sg.observers.filter (fun o => o ≠ eid) }) acc)
      st
    let st := cleanupList f e.owned st
    modifyEff eid
      (fun e2 => { e2 with owned := [], state := false, dependencies := [] }) st
termination_by structural f => f

/-- Clean every effect of a list (the `forEach` over `owned`). -/
def cleanupList : Nat → List Nat → Engine → Engine
  | 0, _, st => st
  | _ + 1, [], st => st
  | f + 1, c :: rest, st => cleanupList f rest (cleanup f c st)
termination_by structural f => f

end

mutual

/-- Run a callback (the `fn()` call sites inside `runUpdates`). -/
def runCb : Nat → Cb → Engine → Engine × Outcome
  | 0, _, st => (st, .fuelOut)
  | _ + 1, .enqueue obs, st => (enqueueObservers obs st, .ok)
  | f + 1, .body b, st => evalBody f b st
termination_by structural f => f

/-- `runUpdates` from the source: if a flush queue is already open,
just run the callback (nested call); otherwise open an empty queue, run
the callback, then drain.  Mirroring the source faithfully, there is no
`finally`: when the callback raises, `flushUpdates` is skipped and the
queue is left open. -/
def runUpdates : Nat → Cb → Engine → Engine × Outcome
  | 0, _, st => (st, .fuelOut)
  | f + 1, cb, st =>
    match st.updates with
    | some _ => runCb f cb st
    | none =>
      let r := runCb f cb { st with updates := some [] }
      if r.2 = .ok then flushUpdates f r.1 else r
termination_by structural f => f

/-- `flushUpdates` from the source: drain the queue from index 0. -/
def flushUpdates : Nat → Engine → Engine × Outcome
  | 0, st => (st, .fuelOut)
  | f + 1, st => flushLoop f 0 st
termination_by structural f => f

/-- The `while` loop of `flushUpdates`: while the queue is nonempty and
the cursor has not reached its (current) length, run the effect at the
cursor and advance.  The queue entry is recorded in the ghost
`drainLog` just before the run; on loop exit the drained queue is
recorded in the ghost `flushLog` and the queue is discarded. -/
def flushLoop : Nat → Nat → Engine → Engine × Outcome
  | 0, _, st => (st, .fuelOut)
  | f + 1, idx, st =>
    let q := st.updates.getD []
    if q.length ≠ 0 ∧ idx ≠ q.length then
      match q.get? idx with
      | some eid =>
        let r := runEffect f eid { st with drainLog := st.drainLog ++ [eid] }
        if r.2 = .ok then flushLoop f (idx + 1) r.1 else r
      | none => (st, .fuelOut)
    else
      ({ st with flushLog := st.flushLog ++ [q], updates := none }, .ok)
termination_by structural f => f

/-- `runEffect` from the source: clean up stale state, push the effect
on the running stack, run its body through `runUpdates`, and pop the
stack on the way out whatever the outcome (the `try/finally`).  The
ghost `runs` counter is bumped at the start of the run. -/
def runEffect : Nat → Nat → Engine → Engine × Outcome
  | 0, _, st => (st, .fuelOut)
  | f + 1, eid, st =>
    let st1 := cleanup f eid st
    let st2 := { st1 with runningEffects := some eid :: st1.runningEffects }
    let st3 := modifyEff eid (fun e => { e with runs := e.runs + 1 }) st2
    let r := runUpdates f (.body (getEff st3 eid).fn) st3
    ({ r.1 with runningEffects := r.1.runningEffects.tail }, r.2)
termination_by structural f => f

/-- The `write` closure of `createSignal`: unconditionally store the
new value; if there are observers, schedule them through
`runUpdates`. -/
def write : Nat → Nat → Nat → Engine → Engine × Outcome
  | 0, _, _, st => (st, .fuelOut)
  | f + 1, s, v, st =>
    let st := modifySig s (fun sg => { sg with current := v }) st
    if (getSig st s).observers.length ≠ 0 then
      runUpdates f (.enqueue (getSig st s).observers) st
    else (st, .ok)
termination_by structural f => f

/-- `createEffect` from the source: capture the running effect as
owner, allocate the effect node, attach it to the owner's `owned`
sequence, and run it once immediately.  Returns the new effect's
index. -/
def createEffect : Nat → Body → Engine → Nat × Engine × Outcome
  | 0, _, st => (0, st, .fuelOut)
  | f + 1, fn, st =>
    let owner := getRunningEffect st
    let eid := st.effects.length
    let eff : Effect :=
      { fn := fn, dependencies := [], state := false,
        owner := owner, owned := [], runs := 0 }
    let st1 := { st with effects := st.effects ++ [eff] }
    let st2 :=
      match owner with
      | some o => modifyEff o (fun e => { e with owned := e.owned ++ [eid] }) st1
      | none => st1
    let r := runEffect f eid st2
    (eid, r.1, r.2)
termination_by structural f => f

/-- Statement interpretation for effect and batch bodies. -/
def evalBody : Nat → Body → Engine → Engine × Outcome
  | 0, _, st => (st, .fuelOut)
  | f + 1, b, st =>
    match b with
    | .skip => (st, .ok)
    | .expr e => ((evalExp e st).2, .ok)
    | .writeS s e =>
      let r := evalExp e st
      write f s r.1 r.2
    | .seq a c =>
      let r := evalBody f a st
      if r.2 = .ok then evalBody f c r.1 else r
    | .bite c t e =>
      let rc := evalExp c st
      if rc.1 ≠ 0 then evalBody f t rc.2 else evalBody f e rc.2
    | .throwE => (st, .exn)
    | .mkEffect fn =>
      let r := createEffect f fn st
      (r.2.1, r.2.2)
termination_by structural f => f

end

/-- `createSignal` from the source: allocate a fresh signal node and
return its index (its reader and writer are `readSignal`/`write`
applied to that index). -/
def createSignal (v : Nat) (st : Engine) : Nat × Engine :=
  (st.signals.length,
   { st with signals := st.signals ++ [{ current := v, observers := [] }] })

/-- `createMemo` from the source: allocate a backing signal (initial
value unset in JS; inert 0 here, overwritten before any read) and an
effect whose body writes `fn()` into it; return the backing signal's
index (its reader). -/
def createMemo (f : Nat) (e : Exp) (st : Engine) : Nat × Engine × Outcome :=
  let rs := createSignal 0 st
  let r := createEffect f (.writeS rs.1 e) rs.2
  (rs.1, r.2.1, r.2.2)

/-- `batch` from the source: delegate to `runUpdates` on the body. -/
def batch (f : Nat) (b : Body) (st : Engine) : Engine × Outcome :=
  runUpdates f (.body b) st

/-- Ghost accessor: how many times effect `e` has run. -/
def runsOf (st : Engine) (e : Nat) : Nat :=
  (getEff st e).runs

/-- Accessor: the observer list of signal `s`. -/
def obsOf (st : Engine) (s : Nat) : List Nat :=
  (getSig st s).observers

/-- Accessor: the current value of signal `s`. -/
def valOf (st : Engine) (s : Nat) : Nat :=
  (getSig st s).current

/-- Accessor: the pending marker of effect `e`. -/
def stateOf (st : Engine) (e : Nat) : Bool :=
  (getEff st e).state

/-- Accessor: the dependency list of effect `e`. -/
def depsOf (st : Engine) (e : Nat) : List Nat :=
  (getEff st e).dependencies

/-! ## Basic preservation lemmas for the primitive state operations -/

theorem modifySig_ghost (s : Nat) (g : SignalNode → SignalNode) (st : Engine) :
    (modifySig s g st).updates = st.updates ∧
    (modifySig s g st).runningEffects = st.runningEffects ∧
    (modifySig s g st).drainLog = st.drainLog ∧
    (modifySig s g st).flushLog = st.flushLog ∧
    (modifySig s g st).effects = st.effects ∧
    (modifySig s g st).signals.length = st.signals.length := by
  refine ⟨rfl, rfl, rfl, rfl, rfl, ?_⟩
  simp [modifySig]

theorem modifyEff_ghost (e : Nat) (g : Effect → Effect) (st : Engine) :
    (modifyEff e g st).updates = st.updates ∧
    (modifyEff e g st).runningEffects = st.runningEffects ∧
    (modifyEff e g st).drainLog = st.drainLog ∧
    (modifyEff e g st).flushLog = st.flushLog ∧
    (modifyEff e g st).signals = st.signals ∧
    (modifyEff e g st).effects.length = st.effects.length := by
  refine ⟨rfl, rfl, rfl, rfl, rfl, ?_⟩
  simp [modifyEff]

theorem trackEffectDependency_ghost (e s : Nat) (st : Engine) :
    (trackEffectDependency e s st).updates = st.updates ∧
    (trackEffectDependency e s st).runningEffects = st.runningEffects ∧
    (trackEffectDependency e s st).drainLog = st.drainLog ∧
    (trackEffectDependency e s st).flushLog = st.flushLog ∧
    (trackEffectDependency e s st).effects.length = st.effects.length ∧
    (trackEffectDependency e s st).signals.length = st.signals.length := by
  refine ⟨rfl, rfl, rfl, rfl, ?_, ?_⟩ <;> simp [trackEffectDependency, modifyEff, modifySig]

theorem readSignal_ghost (s : Nat) (st : Engine) :
    ((readSignal s st).2).updates = st.updates ∧
    ((readSignal s st).2).runningEffects = st.runningEffects ∧
    ((readSignal s st).2).drainLog = st.drainLog ∧
    ((readSignal s st).2).flushLog = st.flushLog ∧
    ((readSignal s st).2).effects.length = st.effects.length ∧
    ((readSignal s st).2).signals.length = st.signals.length := by
  unfold readSignal
  cases h : getRunningEffect st <;>
    simp [trackEffectDependency, modifyEff, modifySig]

theorem evalExp_ghost (e : Exp) : ∀ st : Engine,
    ((evalExp e st).2).updates = st.updates ∧
    ((evalExp e st).2).runningEffects = st.runningEffects ∧
    ((evalExp e st).2).drainLog = st.drainLog ∧
    ((evalExp e st).2).flushLog = st.flushLog ∧
    ((evalExp e st).2).effects.length = st.effects.length ∧
    ((evalExp e st).2).signals.length = st.signals.length := by
  induction e with
  | const n => intro st; simp [evalExp]
  | readS s => intro st; simpa [evalExp] using readSignal_ghost s st
  | add a b iha ihb =>
    intro st
    obtain ⟨ha1, ha2, ha3, ha4, ha5, ha6⟩ := iha st
    obtain ⟨hb1, hb2, hb3, hb4, hb5, hb6⟩ := ihb (evalExp a st).2
    simp only [evalExp]
    exact ⟨hb1.trans ha1, hb2.trans ha2, hb3.trans ha3, hb4.trans ha4,
           hb5.trans ha5, hb6.trans ha6⟩
  | gtc a n iha =>
    intro st
    obtain ⟨ha1, ha2, ha3, ha4, ha5, ha6⟩ := iha st
    simp only [evalExp]
    exact ⟨ha1, ha2, ha3, ha4, ha5, ha6⟩
  | econd c t f ihc iht ihf =>
    intro st
    obtain ⟨hc1, hc2, hc3, hc4, hc5, hc6⟩ := ihc st
    simp only [evalExp]
    by_cases h : (evalExp c st).1 ≠ 0
    · obtain ⟨ht1, ht2, ht3, ht4, ht5, ht6⟩ := iht (evalExp c st).2
      rw [if_pos h]
      exact ⟨ht1.trans hc1, ht2.trans hc2, ht3.trans hc3, ht4.trans hc4,
             ht5.trans hc5, ht6.trans hc6⟩
    · obtain ⟨hf1, hf2, hf3, hf4, hf5, hf6⟩ := ihf (evalExp c st).2
      rw [if_neg h]
      exact ⟨hf1.trans hc1, hf2.trans hc2, hf3.trans hc3, hf4.trans hc4,
             hf5.trans hc5, hf6.trans hc6⟩
  | untrackE a iha =>
    intro st
    obtain ⟨ha1, ha2, ha3, ha4, ha5, ha6⟩ := iha
      { st with runningEffects := none :: st.runningEffects }
    simp only [evalExp]
    refine ⟨ha1, ?_, ha3, ha4, ha5, ha6⟩
    simp [ha2]

/-! ## Accessor lemmas -/

theorem getEff_modifySig (st : Engine) (s e : Nat) (g : SignalNode → SignalNode) :
    getEff (modifySig s g st) e = getEff st e := rfl

theorem getSig_modifyEff (st : Engine) (e s : Nat) (g : Effect → Effect) :
    getSig (modifyEff e g st) s = getSig st s := rfl

theorem getEff_modifyEff_ne (st : Engine) (x e : Nat) (g : Effect → Effect)
    (h : x ≠ e) : getEff (modifyEff x g st) e = getEff st e := by
  simp [getEff, modifyEff, List.getD_eq_getElem?_getD, List.getElem?_set_ne h]

theorem getEff_modifyEff_self (st : Engine) (x : Nat) (g : Effect → Effect)
    (h : x < st.effects.length) : getEff (modifyEff x g st) x = g (getEff st x) := by
  simp [getEff, modifyEff, List.getD_eq_getElem?_getD, List.getElem?_set_self h]

theorem getSig_modifySig_ne (st : Engine) (x s : Nat) (g : SignalNode → SignalNode)
    (h : x ≠ s) : getSig (modifySig x g st) s = getSig st s := by
  simp [getSig, modifySig, List.getD_eq_getElem?_getD, List.getElem?_set_ne h]

theorem getSig_modifySig_self (st : Engine) (x : Nat) (g : SignalNode → SignalNode)
    (h : x < st.signals.length) : getSig (modifySig x g st) x = g (getSig st x) := by
  simp [getSig, modifySig, List.getD_eq_getElem?_getD, List.getElem?_set_self h]

/-! ## Lemmas about the observer-scheduling loop -/

/-- A state-marker update leaves every other effect field unchanged,
for every effect slot (in or out of range). -/
theorem getEff_step_state (st : Engine) (o e : Nat) :
    (getEff (modifyEff o (fun ef => { ef with state := true }) st) e).fn = (getEff st e).fn ∧
    (getEff (modifyEff o (fun ef => { ef with state := true }) st) e).dependencies
      = (getEff st e).dependencies ∧
    (getEff (modifyEff o (fun ef => { ef with state := true }) st) e).owner
      = (getEff st e).owner ∧
    (getEff (modifyEff o (fun ef => { ef with state := true }) st) e).owned
      = (getEff st e).owned ∧
    (getEff (modifyEff o (fun ef => { ef with state := true }) st) e).runs
      = (getEff st e).runs := by
  by_cases h : o = e
  · subst h
    by_cases hl : o < st.effects.length
    · rw [getEff_modifyEff_self st o _ hl]
      exact ⟨rfl, rfl, rfl, rfl, rfl⟩
    · have hnoop : modifyEff o (fun ef => { ef with state := true }) st
          = { st with effects := st.effects } := by
        simp only [modifyEff]
        rw [List.set_eq_of_length_le (by omega)]
      rw [hnoop]
      exact ⟨rfl, rfl, rfl, rfl, rfl⟩
  · rw [getEff_modifyEff_ne st o e _ h]
    exact ⟨rfl, rfl, rfl, rfl, rfl⟩

theorem enqueueOne_ghost (o : Nat) (st : Engine) :
    (enqueueOne o st).signals = st.signals ∧
    (enqueueOne o st).runningEffects = st.runningEffects ∧
    (enqueueOne o st).drainLog = st.drainLog ∧
    (enqueueOne o st).flushLog = st.flushLog ∧
    (enqueueOne o st).effects.length = st.effects.length := by
  unfold enqueueOne
  by_cases h : (getEff st o).state = false
  · rw [if_pos h]
    refine ⟨rfl, rfl, rfl, rfl, ?_⟩
    simp [modifyEff]
  · rw [if_neg h]
    exact ⟨rfl, rfl, rfl, rfl, rfl⟩

theorem enqueueOne_eff_fields (o : Nat) (st : Engine) (e : Nat) :
    (getEff (enqueueOne o st) e).fn = (getEff st e).fn ∧
    (getEff (enqueueOne o st) e).dependencies = (getEff st e).dependencies ∧
    (getEff (enqueueOne o st) e).owner = (getEff st e).owner ∧
    (getEff (enqueueOne o st) e).owned = (getEff st e).owned ∧
    (getEff (enqueueOne o st) e).runs = (getEff st e).runs := by
  unfold enqueueOne
  by_cases h : (getEff st o).state = false
  · rw [if_pos h]
    exact getEff_step_state st o e
  · rw [if_neg h]
    exact ⟨rfl, rfl, rfl, rfl, rfl⟩

/-- One scheduling step extends an open queue by at most the observer
itself, and only when its marker was not yet set. -/
theorem enqueueOne_updates (o : Nat) (st : Engine) (q : List Nat)
    (h : st.updates = some q) :
    (enqueueOne o st).updates = some (q ++ [o]) ∧ (getEff st o).state = false ∨
    (enqueueOne o st).updates = some q ∧ (getEff st o).state = true := by
  unfold enqueueOne
  by_cases hs : (getEff st o).state = false
  · rw [if_pos hs]
    left
    constructor
    · simp [modifyEff, h]
    · exact hs
  · rw [if_neg hs]
    right
    exact ⟨h, by revert hs; cases (getEff st o).state <;> simp⟩

/-- A set pending marker stays set across one scheduling step. -/
theorem enqueueOne_state_mono (o : Nat) (st : Engine) (e : Nat)
    (h : (getEff st e).state = true) : (getEff (enqueueOne o st) e).state = true := by
  unfold enqueueOne
  by_cases hs : (getEff st o).state = false
  · rw [if_pos hs]
    show (getEff (modifyEff o (fun ef => { ef with state := true }) st) e).state = true
    by_cases he : o = e
    · subst he
      by_cases hl : o < st.effects.length
      · rw [getEff_modifyEff_self st o _ hl]
      · have hnoop : modifyEff o (fun ef => { ef with state := true }) st
            = { st with effects := st.effects } := by
          simp only [modifyEff]
          rw [List.set_eq_of_length_le (by omega)]
        rw [hnoop]
        exact h
    · rw [getEff_modifyEff_ne st o e _ he]
      exact h
  · rw [if_neg hs]
    exact h

/-- After one scheduling step the observer's marker is set (when the
observer slot is allocated). -/
theorem enqueueOne_state_set (o : Nat) (st : Engine)
    (hl : o < st.effects.length) : (getEff (enqueueOne o st) o).state = true := by
  unfold enqueueOne
  by_cases hs : (getEff st o).state = false
  · rw [if_pos hs]
    show (getEff (modifyEff o (fun ef => { ef with state := true }) st) o).state = true
    rw [getEff_modifyEff_self st o _ hl]
  · rw [if_neg hs]
    revert hs
    cases (getEff st o).state <;> simp

theorem enqueueObservers_ghost (obs : List Nat) : ∀ st : Engine,
    (enqueueObservers obs st).signals = st.signals ∧
    (enqueueObservers obs st).runningEffects = st.runningEffects ∧
    (enqueueObservers obs st).drainLog = st.drainLog ∧
    (enqueueObservers obs st).flushLog = st.flushLog ∧
    (enqueueObservers obs st).effects.length = st.effects.length := by
  induction obs with
  | nil => intro st; simp [enqueueObservers]
  | cons o rest ih =>
    intro st
    simp only [enqueueObservers]
    obtain ⟨h1, h2, h3, h4, h5⟩ := ih (enqueueOne o st)
    obtain ⟨g1, g2, g3, g4, g5⟩ := enqueueOne_ghost o st
    exact ⟨h1.trans g1, h2.trans g2, h3.trans g3, h4.trans g4, h5.trans g5⟩

/-- Effects are only touched through their `state` marker by the
scheduling loop: every other field survives. -/
theorem enqueueObservers_eff_fields (obs : List Nat) : ∀ (st : Engine) (e : Nat),
    (getEff (enqueueObservers obs st) e).fn = (getEff st e).fn ∧
    (getEff (enqueueObservers obs st) e).dependencies = (getEff st e).dependencies ∧
    (getEff (enqueueObservers obs st) e).owner = (getEff st e).owner ∧
    (getEff (enqueueObservers obs st) e).owned = (getEff st e).owned ∧
    (getEff (enqueueObservers obs st) e).runs = (getEff st e).runs := by
  induction obs with
  | nil => intro st e; simp [enqueueObservers]
  | cons o rest ih =>
    intro st e
    simp only [enqueueObservers]
    obtain ⟨h1, h2, h3, h4, h5⟩ := ih (enqueueOne o st) e
    obtain ⟨g1, g2, g3, g4, g5⟩ := enqueueOne_eff_fields o st e
    exact ⟨h1.trans g1, h2.trans g2, h3.trans g3, h4.trans g4, h5.trans g5⟩

/-- The scheduling loop only appends to an open queue, never removes. -/
theorem enqueueObservers_updates (obs : List Nat) : ∀ (st : Engine) (q : List Nat),
    st.updates = some q →
    ∃ d, (enqueueObservers obs st).updates = some (q ++ d) := by
  induction obs with
  | nil =>
    intro st q h
    exact ⟨[], by simpa [enqueueObservers] using h⟩
  | cons o rest ih =>
    intro st q h
    simp only [enqueueObservers]
    rcases enqueueOne_updates o st q h with ⟨h1, _⟩ | ⟨h1, _⟩
    · obtain ⟨d, hd⟩ := ih (enqueueOne o st) (q ++ [o]) h1
      exact ⟨[o] ++ d, by simpa using hd⟩
    · exact ih (enqueueOne o st) q h1

/-- A set pending marker stays set across the whole scheduling loop. -/
theorem enqueueObservers_state_mono (obs : List Nat) : ∀ (st : Engine) (e : Nat),
    (getEff st e).state = true → (getEff (enqueueObservers obs st) e).state = true := by
  induction obs with
  | nil => intro st e h; simpa [enqueueObservers] using h
  | cons o rest ih =>
    intro st e h
    simp only [enqueueObservers]
    exact ih (enqueueOne o st) e (enqueueOne_state_mono o st e h)

/-- Deduplication: an observer whose pending marker is already set is
never appended again by the scheduling loop (the queue extension avoids
it entirely), and its marker stays set. -/
theorem enqueueObservers_dedup (obs : List Nat) : ∀ (st : Engine) (q : List Nat) (e : Nat),
    st.updates = some q → (getEff st e).state = true →
    ∃ d, (enqueueObservers obs st).updates = some (q ++ d) ∧ e ∉ d ∧
      (getEff (enqueueObservers obs st) e).state = true := by
  induction obs with
  | nil =>
    intro st q e h hs
    exact ⟨[], by simpa [enqueueObservers] using h, by simp,
           by simpa [enqueueObservers] using hs⟩
  | cons o rest ih =>
    intro st q e h hs
    simp only [enqueueObservers]
    have hs1 : (getEff (enqueueOne o st) e).state = true :=
      enqueueOne_state_mono o st e hs
    rcases enqueueOne_updates o st q h with ⟨h1, hof⟩ | ⟨h1, _⟩
    · have hne : o ≠ e := by
        intro hoe
        rw [hoe] at hof
        rw [hs] at hof
        cases hof
      obtain ⟨d, hd, hnd, hst⟩ := ih (enqueueOne o st) (q ++ [o]) e h1 hs1
      refine ⟨[o] ++ d, by simpa using hd, ?_, hst⟩
      intro hmem
      rcases List.mem_append.mp hmem with hmem | hmem
      · exact hne (List.mem_singleton.mp hmem).symm
      · exact hnd hmem
    · exact ih (enqueueOne o st) q e h1 hs1

/-- Every observer of the snapshot has its pending marker set when the
scheduling loop finishes (allocated slots). -/
theorem enqueueObservers_all_pending (obs : List Nat) : ∀ (st : Engine) (o : Nat),
    o ∈ obs → o < st.effects.length →
    (getEff (enqueueObservers obs st) o).state = true := by
  induction obs with
  | nil => intro st o h; cases h
  | cons x rest ih =>
    intro st o hmem hl
    simp only [enqueueObservers]
    have hlen : o < (enqueueOne x st).effects.length := by
      rw [(enqueueOne_ghost x st).2.2.2.2]
      exact hl
    rcases List.mem_cons.mp hmem with h | h
    · subst h
      exact enqueueObservers_state_mono rest (enqueueOne o st) o
        (enqueueOne_state_set o st hl)
    · exact ih (enqueueOne x st) o h hlen

/-- An observer whose marker is not yet set does get appended to the
open queue by the scheduling loop. -/
theorem enqueueObservers_appends (obs : List Nat) : ∀ (st : Engine) (q : List Nat) (o : Nat),
    st.updates = some q → o ∈ obs → (getEff st o).state = false →
    ∃ d, (enqueueObservers obs st).updates = some (q ++ d) ∧ o ∈ d := by
  induction obs with
  | nil => intro st q o h hmem; cases hmem
  | cons x rest ih =>
    intro st q o h hmem hs
    simp only [enqueueObservers]
    by_cases hxo : x = o
    · subst hxo
      rcases enqueueOne_updates x st q h with ⟨h1, _⟩ | ⟨h1, hof⟩
      · obtain ⟨d, hd⟩ := enqueueObservers_updates rest (enqueueOne x st) (q ++ [x]) h1
        exact ⟨[x] ++ d, by simpa using hd, by simp⟩
      · rw [hs] at hof
        cases hof
    · have hs1 : (getEff (enqueueOne x st) o).state = false := by
        unfold enqueueOne
        by_cases hb : (getEff st x).state = false
        · rw [if_pos hb]
          show (getEff (modifyEff x (fun ef => { ef with state := true }) st) o).state = false
          rw [getEff_modifyEff_ne st x o _ hxo]
          exact hs
        · rw [if_neg hb]
          exact hs
      rcases List.mem_cons.mp hmem with hcase | hcase
      · exact absurd hcase.symm hxo
      rcases enqueueOne_updates x st q h with ⟨h1, _⟩ | ⟨h1, _⟩
      · obtain ⟨d, hd, hmemd⟩ := ih (enqueueOne x st) (q ++ [x]) o h1 hcase hs1
        exact ⟨[x] ++ d, by simpa using hd, by simp [hmemd]⟩
      · exact ih (enqueueOne x st) q o h1 hcase hs1

/-! ## Ghost-field preservation for teardown -/

theorem foldl_removeObs_ghost (eid : Nat) (l : List Nat) : ∀ st : Engine,
    (l.foldl (fun acc dep =>
        modifySig dep (fun sg => { sg with observers := sg.observers.filter (fun o => o ≠ eid) }) acc)
      st).updates = st.updates ∧
    (l.foldl (fun acc dep =>
        modifySig dep (fun sg => { sg with observers := sg.observers.filter (fun o => o ≠ eid) }) acc)
      st).runningEffects = st.runningEffects ∧
    (l.foldl (fun acc dep =>
        modifySig dep (fun sg => { sg with observers := sg.observers.filter (fun o => o ≠ eid) }) acc)
      st).drainLog = st.drainLog ∧
    (l.foldl (fun acc dep =>
        modifySig dep (fun sg => { sg with observers := sg.observers.filter (fun o => o ≠ eid) }) acc)
      st).flushLog = st.flushLog ∧
    (l.foldl (fun acc dep =>
        modifySig dep (fun sg => { sg with observers := sg.observers.filter (fun o => o ≠ eid) }) acc)
      st).effects = st.effects ∧
    (l.foldl (fun acc dep =>
        modifySig dep (fun sg => { sg with observers := sg.observers.filter (fun o => o ≠ eid) }) acc)
      st).signals.length = st.signals.length := by
  induction l with
  | nil => intro st; simp
  | cons x rest ih =>
    intro st
    simp only [List.foldl_cons]
    obtain ⟨h1, h2, h3, h4, h5, h6⟩ := ih
      (modifySig x (fun sg => { sg with observers := sg.observers.filter (fun o => o ≠ eid) }) st)
    obtain ⟨g1, g2, g3, g4, g5, g6⟩ := modifySig_ghost x
      (fun sg => { sg with observers := sg.observers.filter (fun o => o ≠ eid) }) st
    exact ⟨h1.trans g1, h2.trans g2, h3.trans g3, h4.trans g4, h5.trans g5, h6.trans g6⟩

theorem cleanup_ghost : ∀ f : Nat,
    (∀ (eid : Nat) (st : Engine),
      (cleanup f eid st).updates = st.updates ∧
      (cleanup f eid st).runningEffects = st.runningEffects ∧
      (cleanup f eid st).drainLog = st.drainLog ∧
      (cleanup f eid st).flushLog = st.flushLog ∧
      (cleanup f eid st).effects.length = st.effects.length ∧
      (cleanup f eid st).signals.length = st.signals.length) ∧
    (∀ (l : List Nat) (st : Engine),
      (cleanupList f l st).updates = st.updates ∧
      (cleanupList f l st).runningEffects = st.runningEffects ∧
      (cleanupList f l st).drainLog = st.drainLog ∧
      (cleanupList f l st).flushLog = st.flushLog ∧
      (cleanupList f l st).effects.length = st.effects.length ∧
      (cleanupList f l st).signals.length = st.signals.length) := by
  intro f
  induction f with
  | zero =>
    constructor
    · intro eid st; simp [cleanup]
    · intro l st; simp [cleanupList]
  | succ f ih =>
    obtain ⟨ihc, ihl⟩ := ih
    constructor
    · intro eid st
      simp only [cleanup]
      obtain ⟨f1, f2, f3, f4, f5, f6⟩ := foldl_removeObs_ghost eid (getEff st eid).dependencies st
      obtain ⟨l1, l2, l3, l4, l5, l6⟩ := ihl (getEff st eid).owned
        ((getEff st eid).dependencies.foldl (fun acc dep =>
          modifySig dep (fun sg => { sg with observers := sg.observers.filter (fun o => o ≠ eid) }) acc) st)
      obtain ⟨m1, m2, m3, m4, _, m6⟩ := modifyEff_ghost eid
        (fun e2 => { e2 with owned := [], state := false, dependencies := [] })
        (cleanupList f (getEff st eid).owned
          ((getEff st eid).dependencies.foldl (fun acc dep =>
            modifySig dep (fun sg => { sg with observers := sg.observers.filter (fun o => o ≠ eid) }) acc) st))
      refine ⟨m1.trans (l1.trans f1), m2.trans (l2.trans f2), m3.trans (l3.trans f3),
              m4.trans (l4.trans f4), ?_, ?_⟩
      · calc _ = _ := (modifyEff_ghost eid _ _).2.2.2.2.2
          _ = _ := l5
          _ = st.effects.length := by rw [f5]
      · calc _ = _ := by
              have := (modifyEff_ghost eid
                (fun e2 => { e2 with owned := [], state := false, dependencies := [] })
                (cleanupList f (getEff st eid).owned
                  ((getEff st eid).dependencies.foldl (fun acc dep =>
                    modifySig dep (fun sg => { sg with observers := sg.observers.filter (fun o => o ≠ eid) }) acc) st))).2.2.2.2.1
              exact congrArg List.length this
          _ = _ := l6
          _ = st.signals.length := f6
    · intro l st
      cases l with
      | nil => simp [cleanupList]
      | cons c rest =>
        simp only [cleanupList]
        obtain ⟨c1, c2, c3, c4, c5, c6⟩ := ihc c st
        obtain ⟨r1, r2, r3, r4, r5, r6⟩ := ihl rest (cleanup f c st)
        exact ⟨r1.trans c1, r2.trans c2, r3.trans c3, r4.trans c4,
               r5.trans c5, r6.trans c6⟩

/-! ## The running stack is balanced across every engine operation

Every engine operation returns with `runningEffects` exactly as it
found it, whatever the outcome — in particular when a computation body
raises, because `runEffect` pops in a `finally`. -/

theorem running_preserved : ∀ f : Nat,
    (∀ (cb : Cb) (st : Engine), ((runCb f cb st).1).runningEffects = st.runningEffects) ∧
    (∀ (cb : Cb) (st : Engine), ((runUpdates f cb st).1).runningEffects = st.runningEffects) ∧
    (∀ st : Engine, ((flushUpdates f st).1).runningEffects = st.runningEffects) ∧
    (∀ (idx : Nat) (st : Engine), ((flushLoop f idx st).1).runningEffects = st.runningEffects) ∧
    (∀ (eid : Nat) (st : Engine), ((runEffect f eid st).1).runningEffects = st.runningEffects) ∧
    (∀ (s v : Nat) (st : Engine), ((write f s v st).1).runningEffects = st.runningEffects) ∧
    (∀ (b : Body) (st : Engine), ((createEffect f b st).2.1).runningEffects = st.runningEffects) ∧
    (∀ (b : Body) (st : Engine), ((evalBody f b st).1).runningEffects = st.runningEffects) := by
  intro f
  induction f with
  | zero =>
    refine ⟨?_, ?_, ?_, ?_, ?_, ?_, ?_, ?_⟩ <;> intros <;> rfl
  | succ f ih =>
    obtain ⟨ihCb, ihRU, ihFU, ihFL, ihRE, ihW, ihCE, ihEB⟩ := ih
    have hCb : ∀ (cb : Cb) (st : Engine),
        ((runCb (f + 1) cb st).1).runningEffects = st.runningEffects := by
      intro cb st
      cases cb with
      | enqueue obs =>
        simpa [runCb] using (enqueueObservers_ghost obs st).2.1
      | body b => simpa [runCb] using ihEB b st
    have hRU : ∀ (cb : Cb) (st : Engine),
        ((runUpdates (f + 1) cb st).1).runningEffects = st.runningEffects := by
      intro cb st
      rcases hu : st.updates with _ | q
      · simp only [runUpdates, hu]
        by_cases ho : (runCb f cb { st with updates := some [] }).2 = .ok
        · rw [if_pos ho]
          exact (ihFU _).trans (ihCb cb { st with updates := some [] })
        · rw [if_neg ho]
          exact ihCb cb { st with updates := some [] }
      · simp only [runUpdates, hu]
        exact ihCb cb st
    have hFL : ∀ (idx : Nat) (st : Engine),
        ((flushLoop (f + 1) idx st).1).runningEffects = st.runningEffects := by
      intro idx st
      simp only [flushLoop]
      by_cases hc : (st.updates.getD []).length ≠ 0 ∧ idx ≠ (st.updates.getD []).length
      · rw [if_pos hc]
        rcases hg : (st.updates.getD []).get? idx with _ | eid
        · rfl
        · simp only
          by_cases ho : (runEffect f eid { st with drainLog := st.drainLog ++ [eid] }).2 = .ok
          · rw [if_pos ho]
            exact (ihFL _ _).trans (ihRE eid { st with drainLog := st.drainLog ++ [eid] })
          · rw [if_neg ho]
            exact ihRE eid { st with drainLog := st.drainLog ++ [eid] }
      · rw [if_neg hc]
    have hFU : ∀ st : Engine,
        ((flushUpdates (f + 1) st).1).runningEffects = st.runningEffects := by
      intro st
      simp only [flushUpdates]
      exact ihFL 0 st
    have hRE : ∀ (eid : Nat) (st : Engine),
        ((runEffect (f + 1) eid st).1).runningEffects = st.runningEffects := by
      intro eid st
      simp only [runEffect]
      have hcl := ((cleanup_ghost f).1 eid st).2.1
      have hmod := (modifyEff_ghost eid (fun e => { e with runs := e.runs + 1 })
        { cleanup f eid st with runningEffects := some eid :: (cleanup f eid st).runningEffects }).2.1
      have hbody := ihRU (.body (getEff (modifyEff eid (fun e => { e with runs := e.runs + 1 })
        { cleanup f eid st with runningEffects := some eid :: (cleanup f eid st).runningEffects }) eid).fn)
        (modifyEff eid (fun e => { e with runs := e.runs + 1 })
          { cleanup f eid st with runningEffects := some eid :: (cleanup f eid st).runningEffects })
      rw [hbody, hmod]
      simp [hcl]
    have hW : ∀ (s v : Nat) (st : Engine),
        ((write (f + 1) s v st).1).runningEffects = st.runningEffects := by
      intro s v st
      simp only [write]
      by_cases hc : (getSig (modifySig s (fun sg => { sg with current := v }) st) s).observers.length ≠ 0
      · rw [if_pos hc]
        exact (ihRU _ _).trans
          (modifySig_ghost s (fun sg => { sg with current := v }) st).2.1
      · rw [if_neg hc]
        exact (modifySig_ghost s (fun sg => { sg with current := v }) st).2.1
    have hCE : ∀ (b : Body) (st : Engine),
        ((createEffect (f + 1) b st).2.1).runningEffects = st.runningEffects := by
      intro b st
      simp only [createEffect]
      rcases ho : getRunningEffect st with _ | o
      · simp only [ho]
        exact ihRE _ _
      · simp only [ho]
        exact (ihRE _ _).trans (modifyEff_ghost o _ _).2.1
    have hEB : ∀ (b : Body) (st : Engine),
        ((evalBody (f + 1) b st).1).runningEffects = st.runningEffects := by
      intro b st
      cases b with
      | skip => rfl
      | expr e => simpa [evalBody] using (evalExp_ghost e st).2.1
      | writeS s e =>
        simp only [evalBody]
        exact (ihW s _ _).trans (evalExp_ghost e st).2.1
      | seq a c =>
        simp only [evalBody]
        by_cases ho : (evalBody f a st).2 = .ok
        · rw [if_pos ho]
          exact (ihEB c _).trans (ihEB a st)
        · rw [if_neg ho]
          exact ihEB a st
      | bite c t e =>
        simp only [evalBody]
        by_cases hv : (evalExp c st).1 ≠ 0
        · rw [if_pos hv]
          exact (ihEB t _).trans (evalExp_ghost c st).2.1
        · rw [if_neg hv]
          exact (ihEB e _).trans (evalExp_ghost c st).2.1
      | throwE => rfl
      | mkEffect fn =>
        simp only [evalBody]
        exact ihCE fn st
    exact ⟨hCb, hRU, hFU, hFL, hRE, hW, hCE, hEB⟩

/-! ## While a flush queue is open, engine operations only append to it

Nested operations never re-open, discard, or reorder the queue: they
extend it at the tail, and never touch the ghost logs (which only the
flush loop writes). -/

theorem queue_monotone : ∀ f : Nat,
    (∀ (cb : Cb) (st : Engine) (q : List Nat), st.updates = some q →
      ∃ d, ((runCb f cb st).1).updates = some (q ++ d) ∧
           ((runCb f cb st).1).drainLog = st.drainLog ∧
           ((runCb f cb st).1).flushLog = st.flushLog) ∧
    (∀ (cb : Cb) (st : Engine) (q : List Nat), st.updates = some q →
      ∃ d, ((runUpdates f cb st).1).updates = some (q ++ d) ∧
           ((runUpdates f cb st).1).drainLog = st.drainLog ∧
           ((runUpdates f cb st).1).flushLog = st.flushLog) ∧
    (∀ (eid : Nat) (st : Engine) (q : List Nat), st.updates = some q →
      ∃ d, ((runEffect f eid st).1).updates = some (q ++ d) ∧
           ((runEffect f eid st).1).drainLog = st.drainLog ∧
           ((runEffect f eid st).1).flushLog = st.flushLog) ∧
    (∀ (s v : Nat) (st : Engine) (q : List Nat), st.updates = some q →
      ∃ d, ((write f s v st).1).updates = some (q ++ d) ∧
           ((write f s v st).1).drainLog = st.drainLog ∧
           ((write f s v st).1).flushLog = st.flushLog) ∧
    (∀ (b : Body) (st : Engine) (q : List Nat), st.updates = some q →
      ∃ d, ((createEffect f b st).2.1).updates = some (q ++ d) ∧
           ((createEffect f b st).2.1).drainLog = st.drainLog ∧
           ((createEffect f b st).2.1).flushLog = st.flushLog) ∧
    (∀ (b : Body) (st : Engine) (q : List Nat), st.updates = some q →
      ∃ d, ((evalBody f b st).1).updates = some (q ++ d) ∧
           ((evalBody f b st).1).drainLog = st.drainLog ∧
           ((evalBody f b st).1).flushLog = st.flushLog) := by
  intro f
  induction f with
  | zero =>
    refine ⟨?_, ?_, ?_, ?_, ?_, ?_⟩ <;> intros <;> rename_i h <;>
      exact ⟨[], by
        simpa [runCb, runUpdates, runEffect, write, createEffect, evalBody] using h,
        rfl, rfl⟩
  | succ f ih =>
    obtain ⟨ihCb, ihRU, ihRE, ihW, ihCE, ihEB⟩ := ih
    have hCb : ∀ (cb : Cb) (st : Engine) (q : List Nat), st.updates = some q →
        ∃ d, ((runCb (f + 1) cb st).1).updates = some (q ++ d) ∧
             ((runCb (f + 1) cb st).1).drainLog = st.drainLog ∧
             ((runCb (f + 1) cb st).1).flushLog = st.flushLog := by
      intro cb st q h
      cases cb with
      | enqueue obs =>
        obtain ⟨d, hd⟩ := enqueueObservers_updates obs st q h
        obtain ⟨_, _, h3, h4, _⟩ := enqueueObservers_ghost obs st
        exact ⟨d, by simpa [runCb] using hd, by simpa [runCb] using h3,
               by simpa [runCb] using h4⟩
      | body b =>
        obtain ⟨d, h1, h2, h3⟩ := ihEB b st q h
        exact ⟨d, by simpa [runCb] using h1, by simpa [runCb] using h2,
               by simpa [runCb] using h3⟩
    have hRU : ∀ (cb : Cb) (st : Engine) (q : List Nat), st.updates = some q →
        ∃ d, ((runUpdates (f + 1) cb st).1).updates = some (q ++ d) ∧
             ((runUpdates (f + 1) cb st).1).drainLog = st.drainLog ∧
             ((runUpdates (f + 1) cb st).1).flushLog = st.flushLog := by
      intro cb st q h
      simp only [runUpdates, h]
      exact ihCb cb st q h
    have hRE : ∀ (eid : Nat) (st : Engine) (q : List Nat), st.updates = some q →
        ∃ d, ((runEffect (f + 1) eid st).1).updates = some (q ++ d) ∧
             ((runEffect (f + 1) eid st).1).drainLog = st.drainLog ∧
             ((runEffect (f + 1) eid st).1).flushLog = st.flushLog := by
      intro eid st q h
      simp only [runEffect]
      obtain ⟨c1, _, c3, c4, _, _⟩ := (cleanup_ghost f).1 eid st
      set st3 := modifyEff eid (fun e => { e with runs := e.runs + 1 })
        { cleanup f eid st with
          runningEffects := some eid :: (cleanup f eid st).runningEffects } with hst3
      have h3 : st3.updates = some q := by
        rw [hst3]
        exact (modifyEff_ghost eid _ _).1.trans (c1.trans h)
      obtain ⟨d, hd1, hd2, hd3⟩ := ihRU (.body (getEff st3 eid).fn) st3 q h3
      refine ⟨d, hd1, ?_, ?_⟩
      · exact hd2.trans ((modifyEff_ghost eid _ _).2.2.1.trans c3)
      · exact hd3.trans ((modifyEff_ghost eid _ _).2.2.2.1.trans c4)
    have hW : ∀ (s v : Nat) (st : Engine) (q : List Nat), st.updates = some q →
        ∃ d, ((write (f + 1) s v st).1).updates = some (q ++ d) ∧
             ((write (f + 1) s v st).1).drainLog = st.drainLog ∧
             ((write (f + 1) s v st).1).flushLog = st.flushLog := by
      intro s v st q h
      simp only [write]
      have hstore : (modifySig s (fun sg => { sg with current := v }) st).updates = some q :=
        (modifySig_ghost s _ st).1.trans h
      by_cases hc : (getSig (modifySig s (fun sg => { sg with current := v }) st) s).observers.length ≠ 0
      · rw [if_pos hc]
        obtain ⟨d, h1, h2, h3⟩ := ihRU _ _ q hstore
        exact ⟨d, h1, h2.trans (modifySig_ghost s _ st).2.2.1,
               h3.trans (modifySig_ghost s _ st).2.2.2.1⟩
      · rw [if_neg hc]
        exact ⟨[], by simpa using hstore, (modifySig_ghost s _ st).2.2.1,
               (modifySig_ghost s _ st).2.2.2.1⟩
    have hCE : ∀ (b : Body) (st : Engine) (q : List Nat), st.updates = some q →
        ∃ d, ((createEffect (f + 1) b st).2.1).updates = some (q ++ d) ∧
             ((createEffect (f + 1) b st).2.1).drainLog = st.drainLog ∧
             ((createEffect (f + 1) b st).2.1).flushLog = st.flushLog := by
      intro b st q h
      simp only [createEffect]
      rcases ho : getRunningEffect st with _ | o <;> simp only [ho]
      · exact ihRE _ _ q h
      · have h1 : (modifyEff o (fun e => { e with owned := e.owned ++ [st.effects.length] })
            { st with effects := st.effects ++
              [{ fn := b, dependencies := [], state := false,
                 owner := some o, owned := [], runs := 0 }] }).updates = some q := by
          rw [(modifyEff_ghost o _ _).1]
          exact h
        obtain ⟨d, k1, k2, k3⟩ := ihRE st.effects.length _ q h1
        refine ⟨d, k1, ?_, ?_⟩
        · rw [k2, (modifyEff_ghost o _ _).2.2.1]
        · rw [k3, (modifyEff_ghost o _ _).2.2.2.1]
    have hEB : ∀ (b : Body) (st : Engine) (q : List Nat), st.updates = some q →
        ∃ d, ((evalBody (f + 1) b st).1).updates = some (q ++ d) ∧
             ((evalBody (f + 1) b st).1).drainLog = st.drainLog ∧
             ((evalBody (f + 1) b st).1).flushLog = st.flushLog := by
      intro b st q h
      cases b with
      | skip => exact ⟨[], by simpa [evalBody] using h, rfl, rfl⟩
      | expr e =>
        obtain ⟨g1, _, g3, g4, _, _⟩ := evalExp_ghost e st
        exact ⟨[], by simpa [evalBody] using g1.trans h,
               by simpa [evalBody] using g3, by simpa [evalBody] using g4⟩
      | writeS s e =>
        simp only [evalBody]
        obtain ⟨g1, _, g3, g4, _, _⟩ := evalExp_ghost e st
        obtain ⟨d, h1, h2, h3⟩ := ihW s (evalExp e st).1 (evalExp e st).2 q (g1.trans h)
        exact ⟨d, h1, h2.trans g3, h3.trans g4⟩
      | seq a c =>
        simp only [evalBody]
        obtain ⟨d1, h1, h2, h3⟩ := ihEB a st q h
        by_cases ho : (evalBody f a st).2 = .ok
        · rw [if_pos ho]
          obtain ⟨d2, k1, k2, k3⟩ := ihEB c (evalBody f a st).1 (q ++ d1) h1
          exact ⟨d1 ++ d2, by rw [k1, List.append_assoc], k2.trans h2, k3.trans h3⟩
        · rw [if_neg ho]
          exact ⟨d1, h1, h2, h3⟩
      | bite c t e =>
        simp only [evalBody]
        obtain ⟨g1, _, g3, g4, _, _⟩ := evalExp_ghost c st
        by_cases hv : (evalExp c st).1 ≠ 0
        · rw [if_pos hv]
          obtain ⟨d, h1, h2, h3⟩ := ihEB t (evalExp c st).2 q (g1.trans h)
          exact ⟨d, h1, h2.trans g3, h3.trans g4⟩
        · rw [if_neg hv]
          obtain ⟨d, h1, h2, h3⟩ := ihEB e (evalExp c st).2 q (g1.trans h)
          exact ⟨d, h1, h2.trans g3, h3.trans g4⟩
      | throwE => exact ⟨[], by simpa [evalBody] using h, rfl, rfl⟩
      | mkEffect fn =>
        simp only [evalBody]
        exact ihCE fn st q h
    exact ⟨hCb, hRU, hRE, hW, hCE, hEB⟩

/-! ## The drain loop: FIFO order, prefix stability, full drain -/

/-- The flush loop, started at cursor `idx` over an open queue `q`,
when it completes normally: the final queue `qf` extends `q` only at
the tail (mid-drain enqueues append), the queue is then discarded, the
completed cycle is logged, and the drained run sequence is exactly
`qf` from the cursor on, in queue order. -/
theorem flushLoop_drain : ∀ f : Nat, ∀ (idx : Nat) (st : Engine) (q : List Nat),
    st.updates = some q → idx ≤ q.length → (flushLoop f idx st).2 = .ok →
    ∃ qf, q <+: qf ∧
      ((flushLoop f idx st).1).updates = none ∧
      ((flushLoop f idx st).1).flushLog = st.flushLog ++ [qf] ∧
      ((flushLoop f idx st).1).drainLog = st.drainLog ++ qf.drop idx := by
  intro f
  induction f with
  | zero =>
    intro idx st q _ _ hok
    simp [flushLoop] at hok
  | succ f ih =>
    intro idx st q hq hidx hok
    have hgetD : st.updates.getD [] = q := by rw [hq]; rfl
    simp only [flushLoop, hgetD] at hok ⊢
    by_cases hc : q.length ≠ 0 ∧ idx ≠ q.length
    · rw [if_pos hc] at hok ⊢
      have hlt : idx < q.length := by omega
      rcases hg : q.get? idx with _ | eid
      · rw [List.get?_eq_getElem?, List.getElem?_eq_getElem hlt] at hg
        cases hg
      · simp only [hg] at hok ⊢
        obtain ⟨d, hu, hdr, hfl⟩ := (queue_monotone f).2.2.1 eid
          { st with drainLog := st.drainLog ++ [eid] } q hq
        by_cases ho : (runEffect f eid { st with drainLog := st.drainLog ++ [eid] }).2 = .ok
        · rw [if_pos ho] at hok ⊢
          have hlen2 : idx + 1 ≤ (q ++ d).length := by
            simp only [List.length_append]
            omega
          obtain ⟨qf, hpre, hu2, hfl2, hdr2⟩ := ih (idx + 1)
            (runEffect f eid { st with drainLog := st.drainLog ++ [eid] }).1 (q ++ d)
            hu hlen2 hok
          have hprefix : q <+: qf := (List.prefix_append q d).trans hpre
          have hidxqf : idx < qf.length := lt_of_lt_of_le hlt hprefix.length_le
          have hqf_idx : qf[idx]? = some eid := by
            obtain ⟨t, ht⟩ := hpre
            rw [← ht, List.append_assoc, List.getElem?_append_left hlt,
                ← List.get?_eq_getElem?]
            exact hg
          have hqf_get : qf[idx] = eid := by
            rw [List.getElem?_eq_getElem hidxqf] at hqf_idx
            exact Option.some.inj hqf_idx
          refine ⟨qf, hprefix, hu2, ?_, ?_⟩
          · rw [hfl2, hfl]
          · rw [hdr2, hdr]
            rw [List.drop_eq_getElem_cons hidxqf, hqf_get]
            show st.drainLog ++ [eid] ++ qf.drop (idx + 1)
              = st.drainLog ++ (eid :: qf.drop (idx + 1))
            rw [List.append_assoc]
            rfl
        · rw [if_neg ho] at hok
          exact absurd hok ho
    · rw [if_neg hc] at hok ⊢
      have hidx_eq : idx = q.length := by omega
      refine ⟨q, List.prefix_rfl, rfl, rfl, ?_⟩
      rw [hidx_eq, List.drop_length]
      simp

/-! ## Scenario-level helper lemmas -/

/-- The stored-value update of `write` never disturbs observer sets. -/
theorem obsOf_modifySig_current (x v s : Nat) (st : Engine) :
    obsOf (modifySig x (fun sg => { sg with current := v }) st) s = obsOf st s := by
  by_cases h : x = s
  · subst h
    by_cases hl : x < st.signals.length
    · rw [obsOf, getSig_modifySig_self st x _ hl]
      rfl
    · have hnoop : modifySig x (fun sg => { sg with current := v }) st
          = { st with signals := st.signals } := by
        simp only [modifySig]
        rw [List.set_eq_of_length_le (by omega)]
      rw [hnoop]
  · rw [obsOf, getSig_modifySig_ne st x s _ h]
    rfl

/-- A write to a signal without observers only stores the value. -/
theorem write_no_observers (f s v : Nat) (st : Engine) (hf : f ≠ 0)
    (h : obsOf st s = []) :
    write f s v st = (modifySig s (fun sg => { sg with current := v }) st, .ok) := by
  cases f with
  | zero => exact absurd rfl hf
  | succ f =>
    simp only [write]
    rw [if_neg]
    rw [show (getSig (modifySig s (fun sg => { sg with current := v }) st) s).observers
        = obsOf (modifySig s (fun sg => { sg with current := v }) st) s from rfl,
      obsOf_modifySig_current, h]
    simp

/-- `runUpdates` over an already-open queue just runs the scheduling
callback. -/
theorem runUpdates_enqueue_open (f : Nat) (obs : List Nat) (st : Engine)
    (q : List Nat) (hq : st.updates = some q) :
    runUpdates (f + 2) (.enqueue obs) st = (enqueueObservers obs st, .ok) := by
  rw [show (f + 2 : Nat) = (f + 1) + 1 from rfl]
  simp only [runUpdates, hq]
  simp only [runCb]

/-- A write while a queue is open: store the value, then run the
scheduling loop over the observer snapshot (no drain). -/
theorem write_open_step (f s v : Nat) (st : Engine) (q : List Nat)
    (hq : st.updates = some q) :
    write (f + 3) s v st =
      (if (getSig (modifySig s (fun sg => { sg with current := v }) st) s).observers.length ≠ 0
       then (enqueueObservers
              ((getSig (modifySig s (fun sg => { sg with current := v }) st) s).observers)
              (modifySig s (fun sg => { sg with current := v }) st), .ok)
       else (modifySig s (fun sg => { sg with current := v }) st, .ok)) := by
  rw [show (f + 3 : Nat) = (f + 2) + 1 from rfl]
  simp only [write]
  by_cases hc : (getSig (modifySig s (fun sg => { sg with current := v }) st) s).observers.length ≠ 0
  · rw [if_pos hc, if_pos hc]
    exact runUpdates_enqueue_open f _ _ q ((modifySig_ghost s _ st).1.trans hq)
  · rw [if_neg hc, if_neg hc]

/-- A signal read outside any running computation is pure: it returns
the current value and leaves the engine untouched. -/
theorem readSignal_inert (s : Nat) (st : Engine) (h : st.runningEffects = []) :
    readSignal s st = ((getSig st s).current, st) := by
  have hr : getRunningEffect st = none := by
    rw [getRunningEffect, h]
    rfl
  simp [readSignal, hr]

/-- Repeatedly calling a reader (a memo reader in particular). -/
def readMany : Nat → Nat → Engine → Engine
  | 0, _, st => st
  | k + 1, s, st => readMany k s (readSignal s st).2

/-- Reader calls outside any running computation do not change the
engine state at all, however many times they are made. -/
theorem readMany_inert (k s : Nat) (st : Engine) (h : st.runningEffects = []) :
    readMany k s st = st := by
  induction k with
  | zero => rfl
  | succ k ih =>
    simp only [readMany]
    rw [readSignal_inert s st h]
    exact ih

/-- A list of writes applied in order (fuel 100 each). -/
def applyWrites (ws : List (Nat × Nat)) (st : Engine) : Engine :=
  ws.foldl (fun st p => (write 100 p.1 p.2 st).1) st

/-- Writes to observer-free signals only update stored values: the
effect store, all observer sets, the running stack and the queue are
untouched. -/
theorem applyWrites_no_obs (ws : List (Nat × Nat)) : ∀ st : Engine,
    (∀ p ∈ ws, obsOf st p.1 = []) →
    (applyWrites ws st).effects = st.effects ∧
    (∀ s, obsOf (applyWrites ws st) s = obsOf st s) ∧
    (applyWrites ws st).runningEffects = st.runningEffects ∧
    (applyWrites ws st).updates = st.updates := by
  induction ws with
  | nil => intro st _; exact ⟨rfl, fun s => rfl, rfl, rfl⟩
  | cons p rest ih =>
    intro st hobs
    have hp : obsOf st p.1 = [] := hobs p (by simp)
    have hw : (write 100 p.1 p.2 st).1
        = modifySig p.1 (fun sg => { sg with current := p.2 }) st := by
      rw [write_no_observers 100 p.1 p.2 st (by decide) hp]
    show (applyWrites rest (write 100 p.1 p.2 st).1).effects = st.effects ∧ _
    rw [show applyWrites (p :: rest) st = applyWrites rest (write 100 p.1 p.2 st).1 from rfl,
        hw]
    obtain ⟨h1, h2, h3, h4⟩ := ih (modifySig p.1 (fun sg => { sg with current := p.2 }) st)
      (fun p' hp' => (obsOf_modifySig_current p.1 p.2 p'.1 st).trans (hobs p' (by simp [hp'])))
    refine ⟨h1.trans (modifySig_ghost p.1 _ st).2.2.2.2.1, ?_, h3.trans (modifySig_ghost p.1 _ st).2.1,
            h4.trans (modifySig_ghost p.1 _ st).1⟩
    intro s
    exact (h2 s).trans (obsOf_modifySig_current p.1 p.2 s st)

/-- The final teardown step of `cleanup` clears the pending marker. -/
theorem stateOf_clear (eid : Nat) (st2 : Engine) :
    stateOf (modifyEff eid
      (fun e2 => { e2 with owned := [], state := false, dependencies := [] }) st2) eid
      = false := by
  by_cases hl : eid < st2.effects.length
  · rw [stateOf, getEff_modifyEff_self st2 eid _ hl]
  · have hnoop : modifyEff eid
        (fun e2 => { e2 with owned := [], state := false, dependencies := [] }) st2
        = { st2 with effects := st2.effects } := by
      simp only [modifyEff]
      rw [List.set_eq_of_length_le (by omega)]
    rw [stateOf, hnoop]
    simp [getEff, List.getD_eq_getElem?_getD,
      List.getElem?_eq_none (show st2.effects.length ≤ eid by omega)]

/-- `cleanup` (the teardown at the start of every run) clears the
effect's pending marker. -/
theorem cleanup_clears_pending (f eid : Nat) (st : Engine) (hf : f ≠ 0) :
    stateOf (cleanup f eid st) eid = false := by
  cases f with
  | zero => exact absurd rfl hf
  | succ f =>
    simp only [cleanup]
    exact stateOf_clear eid _

/-! ## Scenario states (the repository test scenarios, replayed) -/

/-- C1 scenario: two signals; an effect whose whole body reads them
inside `untrack` (`testUntrackScenarios`). -/
def c1Setup : Engine :=
  (createEffect 100 (.expr (.untrackE (.add (.readS 0) (.readS 1))))
    (createSignal 4 (createSignal 3 emptyEngine).2).2).2.1

/-- C2 scenario, step 1: a signal observed by a counting effect. -/
def c2Pre : Engine :=
  (createEffect 100 (.expr (.readS 0)) (createSignal 0 emptyEngine).2).2.1

/-- C2 scenario, step 2: creating an effect whose body throws. -/
def c2Create : Nat × Engine × Outcome := createEffect 100 .throwE c2Pre

/-- C2 scenario: the engine state after the exception propagated. -/
def c2State : Engine := c2Create.2.1

/-- C2 scenario, step 3: an independent write to the observed signal. -/
def c2After : Engine := (write 100 0 7 c2State).1

/-- C3 scenario: `signal(0)`, an effect reading it, then two writes of
the value 5 (the spec's concrete scenario). -/
def c3State : Engine :=
  (write 100 0 5
    ((write 100 0 5
      ((createEffect 100 (.expr (.readS 0)) (createSignal 0 emptyEngine).2).2.1)).1)).1

/-- C4 scenario: effect 0 reads signal 0; effect 1 reads signal 1 and,
when it is nonzero, writes signal 0. -/
def c4Setup : Engine :=
  (createEffect 100 (.bite (.readS 1) (.writeS 0 (.const 2)) .skip)
    (createEffect 100 (.expr (.readS 0))
      (createSignal 0 (createSignal 0 emptyEngine).2).2).2.1).2.1

/-- C4 scenario: one batch writing both signals. -/
def c4Final : Engine :=
  (batch 100 (.seq (.writeS 0 (.const 1)) (.writeS 1 (.const 1))) c4Setup).1

/-- C5 scenario (effect): one effect reading signals 0 and 1. -/
def c5EffSetup : Engine :=
  (createEffect 100 (.expr (.add (.readS 0) (.readS 1)))
    (createSignal 0 (createSignal 0 emptyEngine).2).2).2.1

/-- C5 scenario (effect): both signals written inside one batch. -/
def c5EffBatch : Engine × Outcome :=
  batch 100 (.seq (.writeS 0 (.const 1)) (.writeS 1 (.const 2))) c5EffSetup

/-- C5 scenario (memo): a memo reading signals 0 and 1 (backing
signal 2, backing effect 0). -/
def c5MemoSetup : Engine :=
  (createMemo 100 (.add (.readS 0) (.readS 1))
    (createSignal 0 (createSignal 0 emptyEngine).2).2).2.1

/-- C5 scenario (memo): both signals written inside one batch. -/
def c5MemoBatch : Engine × Outcome :=
  batch 100 (.seq (.writeS 0 (.const 3)) (.writeS 1 (.const 4))) c5MemoSetup

/-- C6 scenario: a memo over signal 0 (backing signal 1, backing
effect 0), source value 3. -/
def c6Setup : Engine :=
  (createMemo 100 (.readS 0) (createSignal 3 emptyEngine).2).2.1

/-- C6 scenario: one write to the memo's tracked dependency. -/
def c6AfterWrite : Engine := (write 100 0 5 c6Setup).1

/-- C7 scenario: an effect reading signal 1 only when signal 0 exceeds
5 (`dynamicTracking` in the repository tests). -/
def c7Setup : Engine :=
  (createEffect 100 (.bite (.gtc (.readS 0) 5) (.expr (.readS 1)) .skip)
    (createSignal 0 (createSignal 0 emptyEngine).2).2).2.1

/-- C7 trace: write to the gated signal while the branch is off. -/
def c7T1 : Engine := (write 100 1 7 c7Setup).1

/-- C7 trace: write that turns the branch on. -/
def c7T2 : Engine := (write 100 0 20 c7T1).1

/-- C7 trace: write to the gated signal while the branch is on. -/
def c7T3 : Engine := (write 100 1 8 c7T2).1

/-- C7 trace: write that turns the branch off again. -/
def c7T4 : Engine := (write 100 0 0 c7T3).1

/-- C7 trace: write to the gated signal with the branch off again. -/
def c7T5 : Engine := (write 100 1 9 c7T4).1

/-- C8 witness input: an engine with an open empty queue. -/
def c8State : Engine := { emptyEngine with updates := some [] }

/-- C9 witness input: one throwing effect, a non-trivial running
stack underneath. -/
def c9State : Engine :=
  { emptyEngine with
    effects := [{ fn := .throwE, dependencies := [], state := false,
                  owner := none, owned := [], runs := 0 }],
    runningEffects := [some 7] }

/-- C10 scenario: a memo over signal 0 whose value is the constant 1
whichever branch is taken (backing signal 1, backing effect 0), and an
effect (1) reading the memo. -/
def c10Setup : Engine :=
  (createEffect 100 (.expr (.readS 1))
    (createMemo 100 (.econd (.readS 0) (.const 1) (.const 1))
      (createSignal 0 emptyEngine).2).2.1).2.1

/-- C10 scenario: signal 0 rewritten with its unchanged value 0; the
memo recomputes to the unchanged value 1. -/
def c10After : Engine := (write 100 0 0 c10Setup).1

/-! ## The claims -/

/-- C2: the claim states that after a public operation terminated
because a computation body raised, the process-wide flush queue is
absent, so an independent write starts a new flush.  The code violates
this: `runUpdates` has no `finally`, so the exception escaping the
effect body during `createEffect` leaves `Updates` as an open (empty,
but present) queue; a later independent write to a signal observed by
a healthy effect then only enqueues — the observer effect never
re-runs and the queue stays open. -/
theorem claim2_queue_left_open :
    c2Create.2.2 = .exn ∧
    c2State.updates = some [] ∧
    c2State.runningEffects = [] ∧
    (write 100 0 7 c2State).2 = .ok ∧
    c2After.updates = some [0] ∧
    runsOf c2After 0 = 1 ∧
    valOf c2After 0 = 7 := by
  exact ⟨by decide, by decide, by decide, by decide, by decide, by decide, by decide⟩

/-- C5: writing S1 and S2 inside one `batch` re-runs an effect that
reads both exactly once (run count 1 → 2 across the `batch` call, the
state being read when `batch` has returned), and likewise recomputes a
memo depending on both exactly once, with the coalesced value
visible. -/
theorem claim5_batch_coalesces :
    runsOf c5EffSetup 0 = 1 ∧
    runsOf c5EffBatch.1 0 = 2 ∧ c5EffBatch.2 = .ok ∧
    valOf c5EffBatch.1 0 = 1 ∧ valOf c5EffBatch.1 1 = 2 ∧
    runsOf c5MemoSetup 0 = 1 ∧
    runsOf c5MemoBatch.1 0 = 2 ∧ c5MemoBatch.2 = .ok ∧
    valOf c5MemoBatch.1 2 = 7 := by
  exact ⟨by decide, by decide, by decide, by decide, by decide, by decide,
         by decide, by decide, by decide⟩

/-- C10: a memo recomputation writes its backing signal even when the
recomputed value equals the cached one: rewriting the dependency with
its unchanged value 0 leaves the memo value at 1, yet both the memo's
backing effect and the downstream effect tracking the memo run again
(1 → 2 each).  There is no value-level change detection anywhere
downstream of a memo. -/
theorem claim10_memo_always_writes :
    runsOf c10Setup 0 = 1 ∧ runsOf c10Setup 1 = 1 ∧
    valOf c10Setup 0 = 0 ∧ valOf c10Setup 1 = 1 ∧
    valOf c10After 0 = 0 ∧ valOf c10After 1 = 1 ∧
    runsOf c10After 0 = 2 ∧ runsOf c10After 1 = 2 := by
  exact ⟨by decide, by decide, by decide, by decide, by decide, by decide,
         by decide, by decide⟩

/-- C9: when a computation body raises during a run, the running stack
is popped on the way out (the `try/finally` in `runEffect`), so the
state observed afterwards carries exactly the running context from
before the failed run was entered. -/
theorem claim9_stack_restored (f eid : Nat) (st : Engine)
    (_hexn : (runEffect f eid st).2 = .exn) :
    ((runEffect f eid st).1).runningEffects = st.runningEffects :=
  (running_preserved f).2.2.2.2.1 eid st

/-- C9 witness: a concrete throwing effect run over a non-empty
running stack; the stack survives unchanged. -/
theorem claim9_stack_restored_witness :
    (runEffect 10 0 c9State).2 = .exn ∧
    ((runEffect 10 0 c9State).1).runningEffects = c9State.runningEffects :=
  ⟨by decide, claim9_stack_restored 10 0 c9State (by decide)⟩

/-- C1 (untrack is absent from `src/index.ts` and is modelled from the
spec, §4.6: push a sentinel null frame, invoke `fn`, restore — see
`evalExp`): `untrack(fn)` returns `fn`'s value computed under the
suspended context; an effect whose body reads signals 0 and 1 only
inside `untrack` registers no dependency (its dependency set and both
observer sets are empty after the initial run), and any sequence of
subsequent writes to those two signals never re-triggers the effect
(its run count stays 1). -/
theorem claim1_untrack_no_tracking :
    (∀ (e : Exp) (st : Engine),
      (evalExp (.untrackE e) st).1
        = (evalExp e { st with runningEffects := none :: st.runningEffects }).1) ∧
    runsOf c1Setup 0 = 1 ∧ depsOf c1Setup 0 = [] ∧
    obsOf c1Setup 0 = [] ∧ obsOf c1Setup 1 = [] ∧
    (∀ ws : List (Bool × Nat),
      runsOf (applyWrites
        (ws.map (fun p => ((if p.1 then 0 else 1 : Nat), p.2))) c1Setup) 0 = 1) := by
  refine ⟨fun e st => rfl, by decide, by decide, by decide, by decide, ?_⟩
  intro ws
  have hobs : ∀ p ∈ ws.map (fun p => ((if p.1 then 0 else 1 : Nat), p.2)),
      obsOf c1Setup p.1 = [] := by
    intro p hp
    obtain ⟨⟨b, v⟩, _, rfl⟩ := List.mem_map.mp hp
    cases b
    · exact (by decide : obsOf c1Setup 1 = [])
    · exact (by decide : obsOf c1Setup 0 = [])
  obtain ⟨h1, _, _, _⟩ := applyWrites_no_obs _ c1Setup hobs
  simp only [runsOf, getEff]
  rw [h1]
  decide

/-- C6: a memo body runs once at creation; calling its reader any
number of times without an intervening dependency write never re-runs
it (and keeps returning the cached value); one write to the tracked
dependency re-runs it exactly once; and reader calls after that write
still cause no further runs. -/
theorem claim6_memo_cached :
    runsOf c6Setup 0 = 1 ∧ valOf c6Setup 1 = 3 ∧
    (∀ k, runsOf (readMany k 1 c6Setup) 0 = 1 ∧
          (readSignal 1 (readMany k 1 c6Setup)).1 = 3) ∧
    runsOf c6AfterWrite 0 = 2 ∧ valOf c6AfterWrite 1 = 5 ∧
    (∀ k, runsOf (readMany k 1 c6AfterWrite) 0 = 2) := by
  refine ⟨by decide, by decide, ?_, by decide, by decide, ?_⟩
  · intro k
    rw [readMany_inert k 1 c6Setup (by decide)]
    exact ⟨by decide, by decide⟩
  · intro k
    rw [readMany_inert k 1 c6AfterWrite (by decide)]
    decide

/-- C7: while signal 0 keeps the gate closed, every write to the gated
signal 1 (any finite sequence of them) leaves the effect's run count
at 1; a write opening the gate runs it once more (2), after which a
write to signal 1 runs it exactly once more (3); closing the gate
again (one more run, 4) makes later writes to signal 1 inert again
(still 4) — dependencies are rebuilt from the path actually taken on
each run. -/
theorem claim7_dynamic_deps :
    runsOf c7Setup 0 = 1 ∧ obsOf c7Setup 1 = [] ∧
    (∀ ws : List Nat,
      runsOf (applyWrites (ws.map (fun v => ((1 : Nat), v))) c7Setup) 0 = 1) ∧
    runsOf c7T1 0 = 1 ∧ runsOf c7T2 0 = 2 ∧ runsOf c7T3 0 = 3 ∧
    runsOf c7T4 0 = 4 ∧ runsOf c7T5 0 = 4 ∧
    depsOf c7T5 0 = [0] := by
  refine ⟨by decide, by decide, ?_, by decide, by decide, by decide,
          by decide, by decide, by decide⟩
  intro ws
  have hobs : ∀ p ∈ ws.map (fun v => ((1 : Nat), v)), obsOf c7Setup p.1 = [] := by
    intro p hp
    obtain ⟨v, _, rfl⟩ := List.mem_map.mp hp
    exact (by decide : obsOf c7Setup 1 = [])
  obtain ⟨h1, _, _, _⟩ := applyWrites_no_obs _ c7Setup hobs
  simp only [runsOf, getEff]
  rw [h1]
  decide

/-- Engines with the same signal store agree on every signal lookup. -/
theorem getSig_congr (st' st : Engine) (x : Nat) (h : st'.signals = st.signals) :
    getSig st' x = getSig st x := by
  unfold getSig
  rw [h]

/-- C3: `write(next)` unconditionally stores `next` — with no equality
short-circuit, for any current value, including `next` itself — and
schedules every observer: all observers end marked pending, and those
not already pending are appended to the open queue.  Stated over an
open queue, where scheduling is fully visible; the spec's concrete
scenario (signal 0, one observing effect, two writes of the value 5)
runs the effect 3 times in total. -/
theorem claim3_write_unconditional :
    (∀ (f s v : Nat) (st : Engine) (q : List Nat),
      st.updates = some q → s < st.signals.length →
      valOf ((write (f + 3) s v st).1) s = v ∧
      (write (f + 3) s v st).2 = .ok ∧
      (∀ o ∈ obsOf st s, o < st.effects.length →
        stateOf ((write (f + 3) s v st).1) o = true) ∧
      (∀ o ∈ obsOf st s, stateOf st o = false →
        ∃ d, ((write (f + 3) s v st).1).updates = some (q ++ d) ∧ o ∈ d)) ∧
    runsOf c3State 0 = 3 ∧ valOf c3State 0 = 5 := by
  constructor
  · intro f s v st q hq hs
    have hgs : getSig (modifySig s (fun sg => { sg with current := v }) st) s
        = { getSig st s with current := v } := getSig_modifySig_self st s _ hs
    rw [write_open_step f s v st q hq]
    by_cases hc : (getSig (modifySig s (fun sg => { sg with current := v }) st) s).observers.length ≠ 0
    · rw [if_pos hc]
      refine ⟨?_, rfl, ?_, ?_⟩
      · show (getSig (enqueueObservers _ _) s).current = v
        rw [getSig_congr _ _ s (enqueueObservers_ghost _ _).1, hgs]
      · intro o ho hlen
        have hmem : o ∈ (getSig (modifySig s (fun sg => { sg with current := v }) st) s).observers := by
          rw [hgs]
          exact ho
        exact enqueueObservers_all_pending _ _ o hmem hlen
      · intro o ho hso
        have hmem : o ∈ (getSig (modifySig s (fun sg => { sg with current := v }) st) s).observers := by
          rw [hgs]
          exact ho
        exact enqueueObservers_appends _ _ q o hq hmem hso
    · rw [if_neg hc]
      have hobs : (getSig (modifySig s (fun sg => { sg with current := v }) st) s).observers = [] :=
        List.length_eq_zero.mp (by omega)
      have hobs0 : obsOf st s = [] := by
        rw [hgs] at hobs
        exact hobs
      refine ⟨?_, rfl, ?_, ?_⟩
      · show (getSig (modifySig s (fun sg => { sg with current := v }) st) s).current = v
        rw [hgs]
      · intro o ho
        rw [hobs0] at ho
        cases ho
      · intro o ho
        rw [hobs0] at ho
        cases ho
  · exact ⟨by decide, by decide⟩

/-- C3 witness input: a signal holding 1 observed by one idle effect,
queue open and empty. -/
def c3W : Engine :=
  { emptyEngine with
    signals := [{ current := 1, observers := [0] }],
    effects := [{ fn := .skip, dependencies := [0], state := false,
                  owner := none, owned := [], runs := 1 }],
    updates := some [] }

/-- C3 witness: writing 9 stores 9, marks the observer pending and
appends it to the queue. -/
theorem claim3_write_unconditional_witness :
    valOf ((write 3 0 9 c3W).1) 0 = 9 ∧ (write 3 0 9 c3W).2 = .ok ∧
    stateOf ((write 3 0 9 c3W).1) 0 = true ∧
    (∃ d, ((write 3 0 9 c3W).1).updates = some ([] ++ d) ∧ 0 ∈ d) := by
  have h := claim3_write_unconditional.1 0 0 9 c3W [] rfl (by decide)
  exact ⟨h.1, h.2.1, h.2.2.1 0 (by decide) (by decide), h.2.2.2 0 (by decide) (by decide)⟩

/-- C4 counterexample: in the two-effect batch scenario (`c4Setup`,
`c4Final`), the single flush cycle triggered by the batch has final
queue `[0, 1, 0]`: effect 0 occupies two slots of the same cycle's
queue (it is run, then effect 1's write re-marks and re-appends it),
so effect 0 runs 3 times in total.  This refutes both "appended at
most once during that cycle" and "the marker is cleared when the flush
completes (not earlier)". -/
theorem claim4_double_slot_counterexample :
    c4Final.flushLog = [[], [], [0, 1, 0]] ∧
    [0, 1, 0].count 0 = 2 ∧
    runsOf c4Final 0 = 3 ∧ runsOf c4Final 1 = 2 := by
  exact ⟨by decide, by decide, by decide, by decide⟩

/-- C4 amended: write-time scheduling does deduplicate against the
pending marker — while a computation is marked pending, a write to a
signal it observes appends nothing for it and keeps the marker set —
but the marker is cleared by `cleanup` at the start of the
computation's own run (not when the flush completes), so a computation
can be appended once more after it has run within the same cycle. -/
theorem claim4_amended_dedup :
    (∀ (f s v : Nat) (st : Engine) (q : List Nat) (eid : Nat),
      st.updates = some q → stateOf st eid = true →
      ∃ d, ((write (f + 3) s v st).1).updates = some (q ++ d) ∧ eid ∉ d ∧
        stateOf ((write (f + 3) s v st).1) eid = true) ∧
    (∀ (f eid : Nat) (st : Engine), f ≠ 0 → stateOf (cleanup f eid st) eid = false) := by
  constructor
  · intro f s v st q eid hq hpend
    rw [write_open_step f s v st q hq]
    by_cases hc : (getSig (modifySig s (fun sg => { sg with current := v }) st) s).observers.length ≠ 0
    · rw [if_pos hc]
      exact enqueueObservers_dedup _ _ q eid hq hpend
    · rw [if_neg hc]
      exact ⟨[], by simpa using hq, by simp, hpend⟩
  · intro f eid st hf
    exact cleanup_clears_pending f eid st hf

/-- C4 witness input: a signal observed by an already-pending effect,
that effect already queued. -/
def c4W : Engine :=
  { emptyEngine with
    signals := [{ current := 0, observers := [0] }],
    effects := [{ fn := .skip, dependencies := [0], state := true,
                  owner := none, owned := [], runs := 1 }],
    updates := some [0] }

/-- C4 witness: a write while the observer is pending appends nothing
for it; teardown clears the marker. -/
theorem claim4_amended_dedup_witness :
    (∃ d, ((write 3 0 4 c4W).1).updates = some ([0] ++ d) ∧ 0 ∉ d ∧
      stateOf ((write 3 0 4 c4W).1) 0 = true) ∧
    stateOf (cleanup 1 0 c4W) 0 = false :=
  ⟨claim4_amended_dedup.1 0 0 4 c4W [0] 0 rfl (by decide),
   claim4_amended_dedup.2 1 0 c4W (by decide)⟩

/-- C8: a completed flush drains, in strict append (FIFO) order, the
whole final queue `qf` (the ghost `drainLog` records the queue-driven
runs in order); the queue open at entry is a prefix of `qf`, so
computations enqueued mid-drain run after all earlier ones; on
completion the queue is discarded.  Consequently an outermost
(non-nested) `runUpdates` — the path every outermost write and batch
takes — returns with no queue and with one fully drained cycle
logged. -/
theorem claim8_fifo_drain :
    (∀ (f : Nat) (st : Engine) (q : List Nat),
      st.updates = some q → (flushUpdates (f + 1) st).2 = .ok →
      ∃ qf, q <+: qf ∧
        ((flushUpdates (f + 1) st).1).updates = none ∧
        ((flushUpdates (f + 1) st).1).flushLog = st.flushLog ++ [qf] ∧
        ((flushUpdates (f + 1) st).1).drainLog = st.drainLog ++ qf) ∧
    (∀ (f : Nat) (cb : Cb) (st : Engine),
      st.updates = none → (runUpdates (f + 1) cb st).2 = .ok →
      ((runUpdates (f + 1) cb st).1).updates = none ∧
      ∃ qf, ((runUpdates (f + 1) cb st).1).flushLog = st.flushLog ++ [qf] ∧
            ((runUpdates (f + 1) cb st).1).drainLog = st.drainLog ++ qf) := by
  constructor
  · intro f st q hq hok
    simp only [flushUpdates] at hok ⊢
    obtain ⟨qf, hp, h1, h2, h3⟩ := flushLoop_drain f 0 st q hq (Nat.zero_le _) hok
    exact ⟨qf, hp, h1, h2, by simpa using h3⟩
  · intro f cb st hnone hok
    simp only [runUpdates, hnone] at hok ⊢
    by_cases ho : (runCb f cb { st with updates := some [] }).2 = .ok
    · rw [if_pos ho] at hok ⊢
      obtain ⟨d, hu, hdr, hfl⟩ := (queue_monotone f).1 cb { st with updates := some [] } [] rfl
      cases f with
      | zero => simp [runCb] at ho
      | succ f' =>
        simp only [flushUpdates] at hok ⊢
        obtain ⟨qf, _, h1, h2, h3⟩ := flushLoop_drain f' 0
          (runCb (f' + 1) cb { st with updates := some [] }).1 ([] ++ d) hu (by simp) hok
        refine ⟨h1, qf, ?_, ?_⟩
        · rw [h2, hfl]
        · rw [h3, hdr]
          simp
    · rw [if_neg ho] at hok
      exact absurd hok ho

/-- C8 witness: a trivial open queue drains to completion, and an
outermost `runUpdates` over a skip body closes with a logged cycle. -/
theorem claim8_fifo_drain_witness :
    (∃ qf, ([] : List Nat) <+: qf ∧
      ((flushUpdates 2 c8State).1).updates = none ∧
      ((flushUpdates 2 c8State).1).flushLog = c8State.flushLog ++ [qf] ∧
      ((flushUpdates 2 c8State).1).drainLog = c8State.drainLog ++ qf) ∧
    (((runUpdates 3 (.body .skip) emptyEngine).1).updates = none ∧
     ∃ qf, ((runUpdates 3 (.body .skip) emptyEngine).1).flushLog
              = emptyEngine.flushLog ++ [qf] ∧
           ((runUpdates 3 (.body .skip) emptyEngine).1).drainLog
              = emptyEngine.drainLog ++ qf) :=
  ⟨claim8_fifo_drain.1 1 c8State [] rfl (by decide),
   claim8_fifo_drain.2 2 (.body .skip) emptyEngine rfl (by decide)⟩
